import Mathlib

/-!
Verification of the chat-colaborativo server core (hub, rooms, users,
protocol codec) against its natural-language specification.

The Python source is shallowly embedded:

* `src/common/protocol.py` — `MessageType`, `Message` (and the payloads
  produced by `MessageFactory`) are embedded below.  Wire frames are JSON
  objects; they are modelled by the `Json` inductive, and Python's
  `json.dumps`/`json.loads` (standard library, external to this repository)
  are taken as mutually inverse bridges between `Json` values and strings,
  so the codec is modelled at the level of `Json` values.  A frame whose
  text is not valid JSON is modelled as `none : Option Json`.
* `src/server/models/user.py`, `src/server/models/room.py`,
  `src/server/server.py`, `src/server/handlers/message_handler.py` — the
  hub state and its operations are embedded further below.

Wall-clock timestamps (`datetime.now().isoformat()`) are modelled by
explicit `String` parameters named `now`; they are opaque data as far as
the verified properties are concerned.
-/

namespace ChatSpec

/-- JSON values, as produced by Python's `json` module: objects are modelled
as association lists of fields in order. -/
inductive Json where
  | null : Json
  | bool : Bool → Json
  | num : Int → Json
  | str : String → Json
  | arr : List Json → Json
  | obj : List (String × Json) → Json

/-- Field lookup in a JSON object (`data["k"]` / `data.get("k")` on a parsed
Python dict): first matching field, `none` when the value is not an object
or the field is absent. -/
def Json.getField : Json → String → Option Json
  | Json.obj fields, k => go fields k
  | _, _ => none
where
  go : List (String × Json) → String → Option Json
    | [], _ => none
    | (k', v) :: rest, k => if k' = k then some v else go rest k

/-- `MessageType` from `src/common/protocol.py`: the tag set of the
protocol. -/
inductive MessageType where
  | connect
  | disconnect
  | connection_ack
  | connection_error
  | create_room
  | join_room
  | leave_room
  | list_rooms
  | rooms_list
  | room_users
  | chat_message
  | system_message
  | user_joined
  | user_left
  | error
deriving DecidableEq, Repr

/-- `MessageType.value`: the wire string of each tag. -/
def MessageType.value : MessageType → String
  | connect => "connect"
  | disconnect => "disconnect"
  | connection_ack => "connection_ack"
  | connection_error => "connection_error"
  | create_room => "create_room"
  | join_room => "join_room"
  | leave_room => "leave_room"
  | list_rooms => "list_rooms"
  | rooms_list => "rooms_list"
  | room_users => "room_users"
  | chat_message => "chat_message"
  | system_message => "system_message"
  | user_joined => "user_joined"
  | user_left => "user_left"
  | error => "error"

/-- `MessageType(s)` in Python: the enum constructor, which raises
`ValueError` on an unknown tag — modelled as `none`. -/
def MessageType.ofValue (s : String) : Option MessageType :=
  if s = "connect" then some .connect
  else if s = "disconnect" then some .disconnect
  else if s = "connection_ack" then some .connection_ack
  else if s = "connection_error" then some .connection_error
  else if s = "create_room" then some .create_room
  else if s = "join_room" then some .join_room
  else if s = "leave_room" then some .leave_room
  else if s = "list_rooms" then some .list_rooms
  else if s = "rooms_list" then some .rooms_list
  else if s = "room_users" then some .room_users
  else if s = "chat_message" then some .chat_message
  else if s = "system_message" then some .system_message
  else if s = "user_joined" then some .user_joined
  else if s = "user_left" then some .user_left
  else if s = "error" then some .error
  else none

/-- `Message` dataclass from `src/common/protocol.py`.  After
`__post_init__` runs, `timestamp` is always set, so it is a plain `String`
here; `Message.make` below models construction with the default. -/
structure Message where
  type : MessageType
  payload : Json
  timestamp : String

/-- Constructing a `Message(type, payload, timestamp)`: `__post_init__`
replaces a missing (`None`) timestamp by `datetime.now().isoformat()`,
modelled by the explicit `now` argument. -/
def Message.make (type : MessageType) (payload : Json) (timestamp : Option String)
    (now : String) : Message :=
  { type := type, payload := payload, timestamp := timestamp.getD now }

/-- `Message.to_json`: the serialized frame, as a JSON value — the object
`{"type": t, "payload": p, "timestamp": ts}` in that field order. -/
def Message.to_json (m : Message) : Json :=
  Json.obj [("type", Json.str m.type.value),
            ("payload", m.payload),
            ("timestamp", Json.str m.timestamp)]

/-- `Message.from_json`: deserialization from a parsed JSON value.  Python
raises (`KeyError`/`ValueError`) on a missing `type` or `payload` field or
an unknown tag — modelled as `none`.  `data.get("timestamp")` yields `None`
when absent, in which case `__post_init__` stamps `now`. -/
def Message.from_json (j : Json) (now : String) : Option Message := do
  let Json.str tag := (← j.getField "type") | none
  let type ← MessageType.ofValue tag
  let payload ← j.getField "payload"
  let timestamp : Option String :=
    match j.getField "timestamp" with
    | some (Json.str s) => some s
    | _ => none
  pure (Message.make type payload timestamp now)

theorem ofValue_value (t : MessageType) : MessageType.ofValue t.value = some t := by
  cases t <;> rfl

/-!
## Server data model

`User` from `src/server/models/user.py`.  The `websocket` handle and the
purely-informational `connected_at` timestamp are not modelled: transport
writes appear as explicit `Eff.send` effects addressed by `user_id`, and
`connected_at` is never read by the engine.
-/

/-- Python's `str.strip()`: remove leading and trailing whitespace.
(Core's `String.trim` is extensionally the same on the frames considered
here but is defined by well-founded recursion, which blocks kernel
evaluation; this structural version keeps the model evaluable.) -/
def pyStrip (s : String) : String :=
  String.mk (((s.data.dropWhile Char.isWhitespace).reverse.dropWhile
    Char.isWhitespace).reverse)

/-- Python's `str.lower()` on the ASCII range (which covers the
case-insensitive name comparison the server performs). -/
def pyLower (s : String) : String :=
  String.mk (s.data.map Char.toLower)

structure User where
  username : String
  user_id : String
  current_room : Option String
deriving DecidableEq, Repr

/-- One record of a room's message history
(`Room.add_message_to_history` in `src/server/models/room.py`). -/
structure HistoryMessage where
  username : String
  content : String
  timestamp : String
deriving DecidableEq, Repr

/-- `Room` from `src/server/models/room.py`.  Python holds a `Set[User]` of
member objects aliased with the hub's `_users` map; here members are kept
as the list of their `user_id`s in insertion order (one deterministic
refinement of the set's arbitrary iteration order) and the user records
live only in the hub's map. -/
structure Room where
  name : String
  created_by : String
  created_at : String
  users : List String
  message_history : List HistoryMessage
  max_history : Nat
deriving DecidableEq, Repr

/-- `Room.has_user`. -/
def Room.has_user (room : Room) (uid : String) : Prop := uid ∈ room.users

instance (room : Room) (uid : String) : Decidable (room.has_user uid) :=
  inferInstanceAs (Decidable (uid ∈ room.users))

/-- `Room.is_empty`. -/
def Room.is_empty (room : Room) : Bool := room.users.isEmpty

/-- `Room.add_message_to_history`: append the record, then
`history = history[-max_history:]` whenever the bound is exceeded.
(Python's `[-k:]` slice keeps the last `k` elements for `k ≥ 1`; the inner
branch mirrors the `k = 0` corner where `[-0:]` keeps everything.) -/
def Room.add_message_to_history (room : Room) (username content now : String) : Room :=
  let history := room.message_history ++ [⟨username, content, now⟩]
  { room with message_history :=
      if room.max_history < history.length then
        if room.max_history = 0 then history
        else history.drop (history.length - room.max_history)
      else history }

/-- Payload of a `rooms_list` entry: `Room.to_dict` in
`src/server/models/room.py`. -/
structure RoomInfo where
  name : String
  created_by : String
  created_at : String
  user_count : Nat
  users : List String
deriving DecidableEq, Repr

/-- Server-to-client messages, by factory (`MessageFactory` in
`src/common/protocol.py`) and payload.  The per-message wall-clock
`timestamp` stamped at construction is not repeated here. -/
inductive Msg where
  | connection_ack (username user_id : String)
  | connection_error (reason : String)
  | rooms_list (rooms : List RoomInfo)
  | room_users (room_name : String) (users : List String)
  | chat_message (username room_name content : String)
  | system_message (content : String) (room_name : Option String)
  | user_joined (username room_name : String)
  | user_left (username room_name : String)
  | error (message : String)
deriving DecidableEq, Repr

/-- An observable side effect: `user.send_message(msg.to_json())` /
`websocket.send`, addressed by the recipient's `user_id`. -/
inductive Eff where
  | send (user_id : String) (msg : Msg)
deriving DecidableEq, Repr

/-- `Room.broadcast`: one send per member, skipping `exclude`
(`if exclude and user == exclude: continue`). -/
def Room.broadcast (room : Room) (msg : Msg) (exclude : Option String) : List Eff :=
  (room.users.filter fun uid =>
      match exclude with
      | some e => uid != e
      | none => true).map fun uid => Eff.send uid msg

/-!
## Hub state

`ChatServer` from `src/server/server.py`.  The `_users` and `_rooms` dicts
are association lists in insertion order with Python-dict semantics
(`alistFind`/`alistInsert`/`alistErase` below); `_websocket_to_user`, the
logger, the asyncio lock (all operations here are the whole critical
sections it serializes) and the host/port are not part of the state the
claims concern.  `next_id` drives allocation of fresh `user_id`s, modelling
the freshness of `str(uuid.uuid4())[:8]`. -/
structure ChatServer where
  users : List (String × User)
  rooms : List (String × Room)
  next_id : Nat
deriving DecidableEq, Repr

/-- Dict lookup `d.get(k)`: first (and, with unique keys, only) binding. -/
def alistFind {β : Type} (l : List (String × β)) (k : String) : Option β :=
  match l with
  | [] => none
  | (k', v) :: rest => if k' = k then some v else alistFind rest k

/-- Dict assignment `d[k] = v`: overwrite in place when the key is bound,
append otherwise. -/
def alistInsert {β : Type} (l : List (String × β)) (k : String) (v : β) :
    List (String × β) :=
  if (alistFind l k).isSome then
    l.map fun p => if p.1 = k then (k, v) else p
  else l ++ [(k, v)]

/-- Dict deletion `del d[k]` / `d.pop(k, None)`. -/
def alistErase {β : Type} (l : List (String × β)) (k : String) : List (String × β) :=
  l.filter fun p => p.1 != k

/-- In-place mutation of the object stored at key `k` (Python mutates the
shared object; the hub's map sees the change). -/
def alistUpdate {β : Type} (l : List (String × β)) (k : String) (f : β → β) :
    List (String × β) :=
  l.map fun p => if p.1 = k then (p.1, f p.2) else p

/-- `str(uuid.uuid4())[:8]`: an opaque token that is fresh for the lifetime
of the process.  Freshness is modelled by rendering a per-hub counter in
unary, which makes distinctness of distinct allocations immediate. -/
def freshId (k : Nat) : String := String.mk ('u' :: List.replicate k '#')

/-- `Room.usernames`: the display names of the members, resolved through
the hub's user map (Python reads them off the aliased `User` objects). -/
def ChatServer.usernames (h : ChatServer) (room : Room) : List String :=
  room.users.filterMap fun uid => (alistFind h.users uid).map User.username

/-- `Room.to_dict`. -/
def ChatServer.roomInfo (h : ChatServer) (room : Room) : RoomInfo :=
  { name := room.name, created_by := room.created_by, created_at := room.created_at,
    user_count := room.users.length, users := h.usernames room }

/-- `ChatServer.get_rooms_info`. -/
def ChatServer.get_rooms_info (h : ChatServer) : List RoomInfo :=
  h.rooms.map fun p => h.roomInfo p.2

/-- `ChatServer._broadcast_to_all`: one send per connected user. -/
def ChatServer.broadcast_to_all (h : ChatServer) (msg : Msg) : List Eff :=
  h.users.map fun p => Eff.send p.1 msg

/-- Result of a state-changing hub operation: the state after the call, the
transport sends it performed in order, and its `bool` return value. -/
structure HubResult where
  state : ChatServer
  effects : List Eff
  ok : Bool
deriving DecidableEq, Repr

/-!
## Hub operations (`src/server/server.py`)

The Python methods take live `User` objects; here they take the `user_id`
and look the record up, with an unknown id — impossible at the call sites —
modelled as a silent no-op.
-/

/-- `ChatServer.delete_room` (lines 159-183): delete a room that is empty
and is not `General`, then broadcast the refreshed `rooms_list` to all. -/
def ChatServer.delete_room (h : ChatServer) (room_name : String) : HubResult :=
  if room_name = "General" then ⟨h, [], false⟩
  else
    match alistFind h.rooms room_name with
    | some room =>
      if room.is_empty then
        let h' := { h with rooms := alistErase h.rooms room_name }
        ⟨h', h'.broadcast_to_all (Msg.rooms_list h'.get_rooms_info), true⟩
      else ⟨h, [], false⟩
    | none => ⟨h, [], false⟩

/-- `ChatServer.leave_room` (lines 232-269).  `Room.remove_user` is inlined:
discard the member and clear `current_room`; then notify `user_left`, the
updated `room_users` to the remaining members if any, and either delete the
emptied room (except `General`) or broadcast the refreshed `rooms_list`. -/
def ChatServer.leave_room (h : ChatServer) (uid room_name : String) : HubResult :=
  match alistFind h.users uid with
  | none => ⟨h, [], false⟩
  | some u =>
    match alistFind h.rooms room_name with
    | none => ⟨h, [], false⟩
    | some room =>
      if uid ∈ room.users then
        let room' := { room with users := room.users.filter fun x => x != uid }
        let h1 : ChatServer := { h with
          rooms := alistInsert h.rooms room_name room',
          users := alistUpdate h.users uid fun v => { v with current_room := none } }
        let effs1 := room'.broadcast (Msg.user_left u.username room_name) none
        let effs2 :=
          if room'.is_empty then []
          else room'.broadcast (Msg.room_users room_name (h1.usernames room')) none
        let next : ChatServer × List Eff :=
          if room'.is_empty && room_name != "General" then
            let r := h1.delete_room room_name
            (r.state, r.effects)
          else (h1, h1.broadcast_to_all (Msg.rooms_list h1.get_rooms_info))
        ⟨next.1, effs1 ++ effs2 ++ next.2, true⟩
      else ⟨h, [], false⟩

/-- `ChatServer.join_room` (lines 185-230): leave the current room first if
it is a different one; error if the target does not exist; `Room.add_user`
(inlined: false when already a member, else add and set
`current_room := room.name`); then `user_joined` to the others,
`room_users` to the whole room, a welcome `system_message` to the joiner,
and the refreshed `rooms_list` to everyone. -/
def ChatServer.join_room (h : ChatServer) (uid room_name : String) : HubResult :=
  match alistFind h.users uid with
  | none => ⟨h, [], false⟩
  | some u =>
    let pre : ChatServer × List Eff :=
      match u.current_room with
      | some r =>
        if r ≠ room_name then
          let lr := h.leave_room uid r
          (lr.state, lr.effects)
        else (h, [])
      | none => (h, [])
    let h1 := pre.1
    match alistFind h1.rooms room_name with
    | none =>
      ⟨h1, pre.2 ++ [Eff.send uid (Msg.error ("La sala '" ++ room_name ++ "' no existe"))],
       false⟩
    | some room =>
      if uid ∈ room.users then ⟨h1, pre.2, false⟩
      else
        let room' := { room with users := room.users ++ [uid] }
        let h2 : ChatServer := { h1 with
          rooms := alistInsert h1.rooms room_name room',
          users := alistUpdate h1.users uid fun v => { v with current_room := some room.name } }
        ⟨h2,
         pre.2
           ++ room'.broadcast (Msg.user_joined u.username room_name) (some uid)
           ++ room'.broadcast (Msg.room_users room_name (h2.usernames room')) none
           ++ [Eff.send uid
                 (Msg.system_message ("Te has unido a la sala '" ++ room_name ++ "'")
                   (some room_name))]
           ++ h2.broadcast_to_all (Msg.rooms_list h2.get_rooms_info),
         true⟩

/-- `ChatServer.create_room_and_join` (lines 110-157): leave the current
room first if any; fail if the name is taken; otherwise create the room
with the creator as sole member, then broadcast the creation
`system_message` and refreshed `rooms_list` to everyone and send
`room_users` plus the welcome `system_message` to the creator. -/
def ChatServer.create_room_and_join (h : ChatServer) (uid room_name now : String) :
    HubResult :=
  match alistFind h.users uid with
  | none => ⟨h, [], false⟩
  | some u =>
    let pre : ChatServer × List Eff :=
      match u.current_room with
      | some r =>
        let lr := h.leave_room uid r
        (lr.state, lr.effects)
      | none => (h, [])
    let h1 := pre.1
    if (alistFind h1.rooms room_name).isSome then ⟨h1, pre.2, false⟩
    else
      let room' : Room := { name := room_name, created_by := u.username, created_at := now,
                            users := [uid], message_history := [], max_history := 100 }
      let h2 : ChatServer := { h1 with
        rooms := alistInsert h1.rooms room_name room',
        users := alistUpdate h1.users uid fun v => { v with current_room := some room'.name } }
      ⟨h2,
       pre.2
         ++ h2.broadcast_to_all (Msg.system_message ("Se ha creado la sala '" ++ room_name ++ "'") none)
         ++ h2.broadcast_to_all (Msg.rooms_list h2.get_rooms_info)
         ++ [Eff.send uid (Msg.room_users room_name (h2.usernames room'))]
         ++ [Eff.send uid
               (Msg.system_message ("Has creado y te has unido a la sala '" ++ room_name ++ "'")
                 (some room_name))],
       true⟩

/-- `ChatServer.broadcast_message` (lines 271-300): silently fail when the
room does not exist; error to the sender when they are not a member; else
append to the history and broadcast the `chat_message` to every member. -/
def ChatServer.broadcast_message (h : ChatServer) (uid room_name content now : String) :
    HubResult :=
  match alistFind h.users uid with
  | none => ⟨h, [], false⟩
  | some u =>
    match alistFind h.rooms room_name with
    | none => ⟨h, [], false⟩
    | some room =>
      if room.has_user uid then
        let room' := room.add_message_to_history u.username content now
        let h' := { h with rooms := alistInsert h.rooms room_name room' }
        ⟨h', room'.broadcast (Msg.chat_message u.username room_name content) none, true⟩
      else ⟨h, [Eff.send uid (Msg.error "No estás en esta sala")], false⟩

/-- `ChatServer.register_user` (lines 308-346): trim the name, reject when
empty, longer than 30 characters, or equal case-insensitively to a live
user's name; otherwise create the user (fresh id, no room) and insert it. -/
def ChatServer.register_user (h : ChatServer) (username : String) :
    ChatServer × Option User :=
  let username := pyStrip username
  if username = "" then (h, none)
  else if 30 < username.length then (h, none)
  else if h.users.any fun p => pyLower p.2.username == pyLower username then (h, none)
  else
    let user : User := { username := username, user_id := freshId h.next_id,
                         current_room := none }
    ({ h with users := alistInsert h.users user.user_id user, next_id := h.next_id + 1 },
     some user)

/-- `ChatServer.disconnect_user` (lines 348-364): leave the current room if
any, then remove the user from the hub. -/
def ChatServer.disconnect_user (h : ChatServer) (uid : String) : ChatServer × List Eff :=
  match alistFind h.users uid with
  | none => (h, [])
  | some u =>
    let pre : ChatServer × List Eff :=
      match u.current_room with
      | some r =>
        let lr := h.leave_room uid r
        (lr.state, lr.effects)
      | none => (h, [])
    ({ pre.1 with users := alistErase pre.1.users uid }, pre.2)

/-!
## Handler dispatch (`src/server/handlers/message_handler.py`) and the
connection loop (`ChatServer.handle_connection`, `src/server/server.py`
lines 366-422)
-/

/-- `payload.get(k, d)` followed by `.strip()`-compatible use: the default
when the field is absent, the string itself when present, and `none` when
the field holds a non-string (Python would raise on `.strip()`/`len`, the
read loop catches and logs it). -/
def getStrD (payload : Json) (k d : String) : Option String :=
  match payload.getField k with
  | none => some d
  | some (Json.str s) => some s
  | some _ => none

/-- `payload.get("room_name")` used under a truthiness test: a non-empty
string passes; `None`, an absent field and the empty string are falsy.  (A
non-string truthy value would reach `rooms.get` and match no room; it is
modelled as absent.) -/
def getRoomNameOpt (payload : Json) : Option String :=
  match payload.getField "room_name" with
  | some (Json.str s) => if s = "" then none else some s
  | _ => none

/-- `CreateRoomHandler.handle`: validate the trimmed name, call
`create_room_and_join`, and report a duplicate name as an `error`. -/
def ChatServer.handleCreateRoom (h : ChatServer) (uid : String) (payload : Json)
    (now : String) : ChatServer × List Eff :=
  match getStrD payload "room_name" "" with
  | none => (h, [])
  | some raw =>
    let room_name := pyStrip raw
    if room_name = "" then
      (h, [Eff.send uid (Msg.error "El nombre de la sala no puede estar vacío")])
    else if 50 < room_name.length then
      (h, [Eff.send uid
            (Msg.error "El nombre de la sala es demasiado largo (máx. 50 caracteres)")])
    else
      let r := h.create_room_and_join uid room_name now
      if r.ok then (r.state, r.effects)
      else (r.state,
            r.effects ++ [Eff.send uid (Msg.error ("La sala '" ++ room_name ++ "' ya existe"))])

/-- `JoinRoomHandler.handle`. -/
def ChatServer.handleJoinRoom (h : ChatServer) (uid : String) (payload : Json) :
    ChatServer × List Eff :=
  match getStrD payload "room_name" "" with
  | none => (h, [])
  | some raw =>
    let room_name := pyStrip raw
    if room_name = "" then
      (h, [Eff.send uid (Msg.error "Debe especificar el nombre de la sala")])
    else
      let r := h.join_room uid room_name
      (r.state, r.effects)

/-- `LeaveRoomHandler.handle`: leave the named room, defaulting to the
user's current room. -/
def ChatServer.handleLeaveRoom (h : ChatServer) (uid : String) (payload : Json) :
    ChatServer × List Eff :=
  match getRoomNameOpt payload with
  | some room_name =>
    let r := h.leave_room uid room_name
    (r.state, r.effects)
  | none =>
    match alistFind h.users uid with
    | some u =>
      match u.current_room with
      | some current =>
        let r := h.leave_room uid current
        (r.state, r.effects)
      | none => (h, [])
    | none => (h, [])

/-- `ListRoomsHandler.handle`. -/
def ChatServer.handleListRooms (h : ChatServer) (uid : String) : ChatServer × List Eff :=
  (h, [Eff.send uid (Msg.rooms_list h.get_rooms_info)])

/-- `ChatMessageHandler.handle`: ignore empty content, default the room to
the sender's current room, error when the sender is in no room, else call
`broadcast_message`. -/
def ChatServer.handleChatMessage (h : ChatServer) (uid : String) (payload : Json)
    (now : String) : ChatServer × List Eff :=
  match getStrD payload "content" "" with
  | none => (h, [])
  | some rawContent =>
    let content := pyStrip rawContent
    let room_name? : Option String :=
      match getRoomNameOpt payload with
      | some rn => some rn
      | none =>
        match alistFind h.users uid with
        | some u => u.current_room
        | none => none
    if content = "" then (h, [])
    else
      match room_name? with
      | none => (h, [Eff.send uid (Msg.error "No estás en ninguna sala")])
      | some room_name =>
        let r := h.broadcast_message uid room_name content now
        (r.state, r.effects)

/-- `MessageHandlerRegistry.handle_message` for a registered session: the
static tag-to-handler dispatch.  Tags without a registered handler
(`connection_ack`, `rooms_list`, …) fall through doing nothing
(`handle_message` returns `False`); `ConnectHandler` is a no-op. -/
def ChatServer.handleMessage (h : ChatServer) (uid : String) (m : Message) (now : String) :
    ChatServer × List Eff :=
  match m.type with
  | .connect => (h, [])
  | .create_room => h.handleCreateRoom uid m.payload now
  | .join_room => h.handleJoinRoom uid m.payload
  | .leave_room => h.handleLeaveRoom uid m.payload
  | .list_rooms => h.handleListRooms uid
  | .chat_message => h.handleChatMessage uid m.payload now
  | .disconnect => h.disconnect_user uid
  | _ => (h, [])

/-- One iteration of `handle_connection`'s read loop for a registered
session.  `frame = none` models text that is not valid JSON
(`json.JSONDecodeError`: logged, nothing sent); a frame `Message.from_json`
rejects (unknown or missing `type`, missing `payload`) raises and is caught
by the generic `except` (logged, nothing sent); otherwise the message is
dispatched. -/
def ChatServer.processFrame (h : ChatServer) (uid : String) (frame : Option Json)
    (now : String) : ChatServer × List Eff :=
  match frame with
  | none => (h, [])
  | some j =>
    match Message.from_json j now with
    | none => (h, [])
    | some m => h.handleMessage uid m now

/-- The `connect` handshake branch of `handle_connection` (lines 382-408):
attempt `register_user`; on rejection reply `connection_error`, on success
reply `connection_ack` then the current `rooms_list`.  The replies go to
the connecting transport, which has a `user_id` only on success, so they
are returned as bare messages. -/
def ChatServer.handleConnect (h : ChatServer) (username : String) :
    ChatServer × List Msg × Option User :=
  let r := h.register_user username
  match r.2 with
  | none => (r.1, [Msg.connection_error "Nombre de usuario inválido o ya en uso"], none)
  | some user =>
    (r.1, [Msg.connection_ack user.username user.user_id,
           Msg.rooms_list r.1.get_rooms_info], some user)

/-!
## Sequences of hub operations

`Op` enumerates the state-changing hub calls a population of clients can
drive (the operations named by the spec's invariant section); `runOps`
executes them from the freshly initialized hub.  The `now` arguments stand
for the wall-clock readings taken during the call.
-/

inductive Op where
  | register (username : String)
  | create_room_and_join (uid room_name now : String)
  | join_room (uid room_name : String)
  | leave_room (uid room_name : String)
  | chat (uid room_name content now : String)
  | disconnect (uid : String)

/-- The state transition of one hub operation (its effects discarded). -/
def ChatServer.step (h : ChatServer) : Op → ChatServer
  | .register username => (h.register_user username).1
  | .create_room_and_join uid room_name now => (h.create_room_and_join uid room_name now).state
  | .join_room uid room_name => (h.join_room uid room_name).state
  | .leave_room uid room_name => (h.leave_room uid room_name).state
  | .chat uid room_name content now => (h.broadcast_message uid room_name content now).state
  | .disconnect uid => (h.disconnect_user uid).1

/-- The default room `Room(name="General", created_by="Sistema")`, with the
startup wall-clock reading as the opaque string `"t0"`. -/
def generalRoom : Room :=
  { name := "General", created_by := "Sistema", created_at := "t0",
    users := [], message_history := [], max_history := 100 }

/-- `ChatServer.__init__`: no users, the default `General` room, counter at
zero. -/
def initialState : ChatServer :=
  { users := [], rooms := [("General", generalRoom)], next_id := 0 }

/-- The hub state after a sequence of operations from startup. -/
def runOps (ops : List Op) : ChatServer :=
  ops.foldl ChatServer.step initialState

/-!
## Lemmas about the dictionary model
-/

theorem alistFind_append {β : Type} (l1 l2 : List (String × β)) (k : String) :
    alistFind (l1 ++ l2) k = (alistFind l1 k).or (alistFind l2 k) := by
  induction l1 with
  | nil => simp [alistFind]
  | cons p rest ih =>
    by_cases hp : p.1 = k
    · simp [alistFind, hp]
    · simp [alistFind, hp, ih]

theorem alistFind_map_replace {β : Type} (l : List (String × β)) (k : String) (v : β)
    (k' : String) :
    alistFind (l.map fun p => if p.1 = k then (k, v) else p) k' =
      if k = k' then (alistFind l k).map fun _ => v else alistFind l k' := by
  induction l with
  | nil => simp [alistFind]
  | cons p rest ih =>
    obtain ⟨a, b⟩ := p
    simp only [List.map_cons]
    by_cases hak : a = k
    · rw [if_pos (show (a, b).1 = k from hak)]
      subst hak
      by_cases hk' : a = k'
      · subst hk'; simp [alistFind, ih]
      · simp [alistFind, hk', ih]
    · rw [if_neg (show ¬ (a, b).1 = k from hak)]
      by_cases hk' : a = k'
      · subst hk'
        have hka : ¬ k = a := fun hc => hak hc.symm
        simp [alistFind, hka]
      · simp [alistFind, hak, hk', ih]

theorem alistFind_insert {β : Type} (l : List (String × β)) (k : String) (v : β)
    (k' : String) :
    alistFind (alistInsert l k v) k' = if k = k' then some v else alistFind l k' := by
  unfold alistInsert
  by_cases hs : (alistFind l k).isSome
  · rw [if_pos hs, alistFind_map_replace]
    by_cases hkk : k = k'
    · subst hkk
      obtain ⟨w, hw⟩ := Option.isSome_iff_exists.mp hs
      simp [hw]
    · simp [hkk]
  · rw [if_neg hs, alistFind_append]
    by_cases hkk : k = k'
    · subst hkk
      have : alistFind l k = none := Option.not_isSome_iff_eq_none.mp hs
      simp [this, alistFind]
    · by_cases hr : (alistFind l k' ).isSome
      · obtain ⟨w, hw⟩ := Option.isSome_iff_exists.mp hr
        simp [hw, hkk]
      · have : alistFind l k' = none := Option.not_isSome_iff_eq_none.mp hr
        simp [this, hkk, alistFind, fun hc : k' = k => hkk hc.symm]

theorem alistFind_erase {β : Type} (l : List (String × β)) (k k' : String) :
    alistFind (alistErase l k) k' = if k = k' then none else alistFind l k' := by
  induction l with
  | nil => simp [alistErase, alistFind]
  | cons p rest ih =>
    obtain ⟨a, b⟩ := p
    simp only [alistErase, List.filter_cons] at ih ⊢
    by_cases hak : a = k
    · rw [if_neg (show ¬ ((a, b).1 != k) = true by simp [hak])]
      subst hak
      by_cases hk' : a = k'
      · subst hk'; simpa using ih
      · simpa [alistFind, hk'] using ih
    · rw [if_pos (show ((a, b).1 != k) = true by simp [hak])]
      by_cases hk' : a = k'
      · subst hk'
        have hka : ¬ k = a := fun hc => hak hc.symm
        simp [alistFind, hka]
      · simp [alistFind, hak, hk', ih]

theorem alistFind_update {β : Type} (l : List (String × β)) (k : String) (f : β → β)
    (k' : String) :
    alistFind (alistUpdate l k f) k' =
      if k = k' then (alistFind l k).map f else alistFind l k' := by
  induction l with
  | nil => simp [alistUpdate, alistFind]
  | cons p rest ih =>
    obtain ⟨a, b⟩ := p
    simp only [alistUpdate, List.map_cons] at *
    by_cases hak : a = k
    · rw [if_pos (show (a, b).1 = k from hak)]
      subst hak
      by_cases hk' : a = k'
      · subst hk'; simp [alistFind, ih]
      · simp [alistFind, hk', ih]
    · rw [if_neg (show ¬ (a, b).1 = k from hak)]
      by_cases hk' : a = k'
      · subst hk'
        have hka : ¬ k = a := fun hc => hak hc.symm
        simp [alistFind, hka]
      · simp [alistFind, hak, hk', ih]

theorem freshId_injective : Function.Injective freshId := by
  intro a b hab
  have hlen := congrArg (fun s => s.data.length) hab
  simpa [freshId] using hlen

/-!
## The hub invariant

The consistency conditions §3 of the spec requires between operations,
together with the bookkeeping facts (key/field agreement, id freshness)
that make them inductive.
-/

structure Inv (h : ChatServer) : Prop where
  roomNameKey : ∀ rn room, alistFind h.rooms rn = some room → room.name = rn
  membersLive : ∀ rn room, alistFind h.rooms rn = some room →
      ∀ uid ∈ room.users, (alistFind h.users uid).isSome
  currentRoomLive : ∀ uid u, alistFind h.users uid = some u →
      ∀ r, u.current_room = some r → (alistFind h.rooms r).isSome
  symmetry : ∀ uid u, alistFind h.users uid = some u →
      ∀ rn room, alistFind h.rooms rn = some room →
      (u.current_room = some rn ↔ uid ∈ room.users)
  fresh : ∀ uid u, alistFind h.users uid = some u →
      ∃ k, k < h.next_id ∧ uid = freshId k
  maxHist : ∀ rn room, alistFind h.rooms rn = some room → room.max_history = 100
  histBound : ∀ rn room, alistFind h.rooms rn = some room →
      room.message_history.length ≤ 100
  general : (alistFind h.rooms "General").isSome

theorem inv_initialState : Inv initialState := by
  have hfind : ∀ rn room, alistFind initialState.rooms rn = some room →
      rn = "General" ∧ room = generalRoom := by
    intro rn room hf
    simp only [initialState, alistFind] at hf
    split_ifs at hf with hc
    cases hf; exact ⟨hc.symm, rfl⟩
  constructor
  · intro rn room hf
    obtain ⟨h1, h2⟩ := hfind rn room hf
    subst h1; subst h2; rfl
  · intro rn room hf uid hm
    obtain ⟨h1, h2⟩ := hfind rn room hf
    subst h2; simp [generalRoom] at hm
  · intro uid u hu; simp [initialState, alistFind] at hu
  · intro uid u hu; simp [initialState, alistFind] at hu
  · intro uid u hu; simp [initialState, alistFind] at hu
  · intro rn room hf
    obtain ⟨h1, h2⟩ := hfind rn room hf
    subst h2; rfl
  · intro rn room hf
    obtain ⟨h1, h2⟩ := hfind rn room hf
    subst h2; simp [generalRoom]
  · simp [initialState, alistFind]

/-- `delete_room` preserves the invariant (a room is deleted only when it
has no members, so no `current_room` can point at it). -/
theorem delete_room_state_inv (h : ChatServer) (room_name : String) (hinv : Inv h) :
    Inv (h.delete_room room_name).state := by
  unfold ChatServer.delete_room
  by_cases hg : room_name = "General"
  · simp only [if_pos hg]; exact hinv
  · simp only [if_neg hg]
    cases hr : alistFind h.rooms room_name with
    | none => exact hinv
    | some room =>
      by_cases he : room.is_empty
      · simp only [if_pos he]
        have husers : room.users = [] := by
          simpa [Room.is_empty, List.isEmpty_iff] using he
        constructor
        · intro rn room' hf
          rw [alistFind_erase] at hf
          split_ifs at hf
          exact hinv.roomNameKey rn room' hf
        · intro rn room' hf uid hm
          rw [alistFind_erase] at hf
          split_ifs at hf
          exact hinv.membersLive rn room' hf uid hm
        · intro uid u hu r hcr
          rw [alistFind_erase]
          split_ifs with hc
          · exfalso
            subst hc
            have := (hinv.symmetry uid u hu room_name room hr).mp hcr
            rw [husers] at this
            simp at this
          · exact hinv.currentRoomLive uid u hu r hcr
        · intro uid u hu rn room' hf
          rw [alistFind_erase] at hf
          split_ifs at hf
          exact hinv.symmetry uid u hu rn room' hf
        · exact hinv.fresh
        · intro rn room' hf
          rw [alistFind_erase] at hf
          split_ifs at hf
          exact hinv.maxHist rn room' hf
        · intro rn room' hf
          rw [alistFind_erase] at hf
          split_ifs at hf
          exact hinv.histBound rn room' hf
        · rw [alistFind_erase, if_neg hg]
          exact hinv.general
      · simp only [if_neg he]; exact hinv

/-- The state mutation of a successful `leave_room` — the member removed
from the room's set, the user's `current_room` cleared — preserves the
invariant. -/
theorem leaveUpdate_inv (h : ChatServer) (uid room_name : String) (u : User) (room : Room)
    (hinv : Inv h) (hu : alistFind h.users uid = some u)
    (hr : alistFind h.rooms room_name = some room) (hmem : uid ∈ room.users) :
    Inv { h with
      rooms := alistInsert h.rooms room_name
        { room with users := room.users.filter fun x => x != uid },
      users := alistUpdate h.users uid fun v => { v with current_room := none } } := by
  have hcur : u.current_room = some room_name :=
    (hinv.symmetry uid u hu room_name room hr).mpr hmem
  have hname : room.name = room_name := hinv.roomNameKey room_name room hr
  constructor
  · intro rn room' hf
    rw [alistFind_insert] at hf
    split_ifs at hf with hc
    · cases hf; simpa [hname] using hc
    · exact hinv.roomNameKey rn room' hf
  · intro rn room' hf uid' hm'
    have hsome : (alistFind h.users uid').isSome := by
      rw [alistFind_insert] at hf
      split_ifs at hf with hc
      · cases hf
        exact hinv.membersLive room_name room hr uid' (List.mem_filter.mp hm').1
      · exact hinv.membersLive rn room' hf uid' hm'
    rw [alistFind_update]
    split_ifs with hc
    · subst hc; rw [hu]; rfl
    · exact hsome
  · intro uid' u' hu' r hcr
    rw [alistFind_update] at hu'
    rw [alistFind_insert]
    split_ifs at hu' with hc
    · rw [hu] at hu'
      simp only [Option.map_some'] at hu'
      cases hu'
      simp at hcr
    · split_ifs with hc2
      · rfl
      · exact hinv.currentRoomLive uid' u' hu' r hcr
  · intro uid' u' hu' rn room' hf
    rw [alistFind_update] at hu'
    rw [alistFind_insert] at hf
    split_ifs at hu' with hcu
    · rw [hu] at hu'
      simp only [Option.map_some'] at hu'
      cases hu'
      subst hcu
      split_ifs at hf with hcr2
      · cases hf
        constructor
        · intro hcontra; simp at hcontra
        · intro hmem'
          have := (List.mem_filter.mp hmem').2
          simp at this
      · constructor
        · intro hcontra; simp at hcontra
        · intro hmem'
          have h2 := (hinv.symmetry uid u hu rn room' hf).mpr hmem'
          rw [hcur] at h2
          cases h2
          exact absurd rfl hcr2
    · split_ifs at hf with hcr2
      · cases hf
        subst hcr2
        have base := hinv.symmetry uid' u' hu' room_name room hr
        have hne : uid' ≠ uid := fun hcc => hcu hcc.symm
        constructor
        · intro hc2
          exact List.mem_filter.mpr ⟨base.mp hc2, by simp [hne]⟩
        · intro hm2
          exact base.mpr (List.mem_filter.mp hm2).1
      · exact hinv.symmetry uid' u' hu' rn room' hf
  · intro uid' u' hu'
    rw [alistFind_update] at hu'
    split_ifs at hu' with hc
    · subst hc; exact hinv.fresh uid u hu
    · exact hinv.fresh uid' u' hu'
  · intro rn room' hf
    rw [alistFind_insert] at hf
    split_ifs at hf with hc
    · cases hf; exact hinv.maxHist room_name room hr
    · exact hinv.maxHist rn room' hf
  · intro rn room' hf
    rw [alistFind_insert] at hf
    split_ifs at hf with hc
    · cases hf; exact hinv.histBound room_name room hr
    · exact hinv.histBound rn room' hf
  · rw [alistFind_insert]
    split_ifs with hc
    · rfl
    · exact hinv.general

/-- `delete_room` never touches the user map. -/
theorem delete_room_users (h : ChatServer) (room_name : String) :
    (h.delete_room room_name).state.users = h.users := by
  unfold ChatServer.delete_room
  by_cases hg : room_name = "General"
  · rw [if_pos hg]
  · rw [if_neg hg]
    cases hr : alistFind h.rooms room_name with
    | none => rfl
    | some room =>
      dsimp only
      by_cases he : room.is_empty
      · rw [if_pos he]
      · rw [if_neg he]

/-- `leave_room` preserves the invariant. -/
theorem leave_room_state_inv (h : ChatServer) (uid room_name : String) (hinv : Inv h) :
    Inv (h.leave_room uid room_name).state := by
  unfold ChatServer.leave_room
  cases hu : alistFind h.users uid with
  | none => exact hinv
  | some u =>
    cases hr : alistFind h.rooms room_name with
    | none => exact hinv
    | some room =>
      dsimp only
      by_cases hmem : uid ∈ room.users
      · rw [if_pos hmem]
        have hinv1 := leaveUpdate_inv h uid room_name u room hinv hu hr hmem
        dsimp only
        split_ifs with hc
        · exact delete_room_state_inv _ room_name hinv1
        · exact hinv1
      · rw [if_neg hmem]; exact hinv

/-- After a `leave_room` of the user's current room, the user's record has
its `current_room` cleared (and is otherwise unchanged). -/
theorem leave_room_find_user (h : ChatServer) (uid room_name : String) (u : User)
    (hinv : Inv h) (hu : alistFind h.users uid = some u)
    (hcur : u.current_room = some room_name) :
    alistFind (h.leave_room uid room_name).state.users uid =
      some { u with current_room := none } := by
  obtain ⟨room, hr⟩ :=
    Option.isSome_iff_exists.mp (hinv.currentRoomLive uid u hu room_name hcur)
  have hmem : uid ∈ room.users := (hinv.symmetry uid u hu room_name room hr).mp hcur
  unfold ChatServer.leave_room
  rw [hu, hr]
  dsimp only
  rw [if_pos hmem]
  dsimp only
  split_ifs with hc
  · rw [delete_room_users, alistFind_update, if_pos rfl, hu]
    rfl
  · rw [alistFind_update, if_pos rfl, hu]
    rfl

/-- The state mutation of a successful `join_room` (member appended to an
existing room, `current_room` set) preserves the invariant, provided the
joiner was roomless. -/
theorem joinUpdate_inv (h : ChatServer) (uid room_name : String) (u : User) (room : Room)
    (hinv : Inv h) (hu : alistFind h.users uid = some u)
    (hr : alistFind h.rooms room_name = some room) (hmem : uid ∉ room.users)
    (hcurNone : u.current_room = none) :
    Inv { h with
      rooms := alistInsert h.rooms room_name { room with users := room.users ++ [uid] },
      users := alistUpdate h.users uid fun v => { v with current_room := some room.name } } := by
  have hname : room.name = room_name := hinv.roomNameKey room_name room hr
  have hnotin : ∀ rn room', alistFind h.rooms rn = some room' → uid ∉ room'.users := by
    intro rn room' hf hmem'
    have := (hinv.symmetry uid u hu rn room' hf).mpr hmem'
    rw [hcurNone] at this
    cases this
  constructor
  · intro rn room' hf
    rw [alistFind_insert] at hf
    split_ifs at hf with hc
    · cases hf; simpa [hname] using hc
    · exact hinv.roomNameKey rn room' hf
  · intro rn room' hf uid' hm'
    have hsome : (alistFind h.users uid').isSome := by
      rw [alistFind_insert] at hf
      split_ifs at hf with hc
      · cases hf
        rcases List.mem_append.mp hm' with hold | hnew
        · exact hinv.membersLive room_name room hr uid' hold
        · have : uid' = uid := by simpa using hnew
          subst this
          rw [hu]; rfl
      · exact hinv.membersLive rn room' hf uid' hm'
    rw [alistFind_update]
    split_ifs with hc
    · subst hc; rw [hu]; rfl
    · exact hsome
  · intro uid' u' hu' r hcr
    rw [alistFind_update] at hu'
    rw [alistFind_insert]
    split_ifs at hu' with hc
    · rw [hu] at hu'
      simp only [Option.map_some'] at hu'
      cases hu'
      simp only at hcr
      cases hcr
      split_ifs with hc2
      · rfl
      · exact absurd hname.symm hc2
    · split_ifs with hc2
      · rfl
      · exact hinv.currentRoomLive uid' u' hu' r hcr
  · intro uid' u' hu' rn room' hf
    rw [alistFind_update] at hu'
    rw [alistFind_insert] at hf
    split_ifs at hu' with hcu
    · rw [hu] at hu'
      simp only [Option.map_some'] at hu'
      cases hu'
      subst hcu
      split_ifs at hf with hcr2
      · cases hf
        subst hcr2
        constructor
        · intro _
          exact List.mem_append.mpr (Or.inr (by simp))
        · intro _
          simp [hname]
      · constructor
        · intro hc2
          simp only at hc2
          cases hc2
          exact absurd hname.symm hcr2
        · intro hmem'
          exact absurd hmem' (hnotin rn room' hf)
    · split_ifs at hf with hcr2
      · cases hf
        subst hcr2
        have base := hinv.symmetry uid' u' hu' room_name room hr
        have hne : uid' ≠ uid := fun hcc => hcu hcc.symm
        constructor
        · intro hc2
          exact List.mem_append.mpr (Or.inl (base.mp hc2))
        · intro hm2
          rcases List.mem_append.mp hm2 with hold | hnew
          · exact base.mpr hold
          · exact absurd (by simpa using hnew) hne
      · exact hinv.symmetry uid' u' hu' rn room' hf
  · intro uid' u' hu'
    rw [alistFind_update] at hu'
    split_ifs at hu' with hc
    · subst hc; exact hinv.fresh uid u hu
    · exact hinv.fresh uid' u' hu'
  · intro rn room' hf
    rw [alistFind_insert] at hf
    split_ifs at hf with hc
    · cases hf; exact hinv.maxHist room_name room hr
    · exact hinv.maxHist rn room' hf
  · intro rn room' hf
    rw [alistFind_insert] at hf
    split_ifs at hf with hc
    · cases hf; exact hinv.histBound room_name room hr
    · exact hinv.histBound rn room' hf
  · rw [alistFind_insert]
    split_ifs with hc
    · rfl
    · exact hinv.general

/-- The state mutation of a successful `create_room_and_join` (fresh room
with the creator as sole member, `current_room` set) preserves the
invariant, provided the creator was roomless. -/
theorem createUpdate_inv (h : ChatServer) (uid room_name now : String) (u : User)
    (hinv : Inv h) (hu : alistFind h.users uid = some u)
    (hnr : alistFind h.rooms room_name = none) (hcurNone : u.current_room = none) :
    Inv { h with
      rooms := alistInsert h.rooms room_name
        { name := room_name, created_by := u.username, created_at := now,
          users := [uid], message_history := [], max_history := 100 },
      users := alistUpdate h.users uid fun v => { v with current_room := some room_name } } := by
  have hnotin : ∀ rn room', alistFind h.rooms rn = some room' → uid ∉ room'.users := by
    intro rn room' hf hmem'
    have := (hinv.symmetry uid u hu rn room' hf).mpr hmem'
    rw [hcurNone] at this
    cases this
  have hng : room_name ≠ "General" := by
    intro hc
    have := hinv.general
    rw [← hc, hnr] at this
    cases this
  constructor
  · intro rn room' hf
    rw [alistFind_insert] at hf
    split_ifs at hf with hc
    · cases hf; exact hc
    · exact hinv.roomNameKey rn room' hf
  · intro rn room' hf uid' hm'
    have hsome : (alistFind h.users uid').isSome := by
      rw [alistFind_insert] at hf
      split_ifs at hf with hc
      · cases hf
        have : uid' = uid := by simpa using hm'
        subst this
        rw [hu]; rfl
      · exact hinv.membersLive rn room' hf uid' hm'
    rw [alistFind_update]
    split_ifs with hc
    · subst hc; rw [hu]; rfl
    · exact hsome
  · intro uid' u' hu' r hcr
    rw [alistFind_update] at hu'
    rw [alistFind_insert]
    split_ifs at hu' with hc
    · rw [hu] at hu'
      simp only [Option.map_some'] at hu'
      cases hu'
      simp only at hcr
      cases hcr
      split_ifs with hc2
      · rfl
      · exact absurd rfl hc2
    · split_ifs with hc2
      · rfl
      · exact hinv.currentRoomLive uid' u' hu' r hcr
  · intro uid' u' hu' rn room' hf
    rw [alistFind_update] at hu'
    rw [alistFind_insert] at hf
    split_ifs at hu' with hcu
    · rw [hu] at hu'
      simp only [Option.map_some'] at hu'
      cases hu'
      subst hcu
      split_ifs at hf with hcr2
      · cases hf
        subst hcr2
        constructor
        · intro _; simp
        · intro _; rfl
      · constructor
        · intro hc2
          simp only at hc2
          cases hc2
          exact absurd rfl hcr2
        · intro hmem'
          exact absurd hmem' (hnotin rn room' hf)
    · split_ifs at hf with hcr2
      · cases hf
        subst hcr2
        have hne : uid' ≠ uid := fun hcc => hcu hcc.symm
        constructor
        · intro hc2
          exfalso
          have := hinv.currentRoomLive uid' u' hu' room_name hc2
          rw [hnr] at this
          cases this
        · intro hm2
          exact absurd (by simpa using hm2) hne
      · exact hinv.symmetry uid' u' hu' rn room' hf
  · intro uid' u' hu'
    rw [alistFind_update] at hu'
    split_ifs at hu' with hc
    · subst hc; exact hinv.fresh uid u hu
    · exact hinv.fresh uid' u' hu'
  · intro rn room' hf
    rw [alistFind_insert] at hf
    split_ifs at hf with hc
    · cases hf; rfl
    · exact hinv.maxHist rn room' hf
  · intro rn room' hf
    rw [alistFind_insert] at hf
    split_ifs at hf with hc
    · cases hf; simp
    · exact hinv.histBound rn room' hf
  · rw [alistFind_insert]
    split_ifs with hc
    · rfl
    · exact hinv.general

/-- A to-be-allocated id is not yet bound in the user map. -/
theorem freshId_not_found (h : ChatServer) (hinv : Inv h) :
    alistFind h.users (freshId h.next_id) = none := by
  cases hfind : alistFind h.users (freshId h.next_id) with
  | none => rfl
  | some w =>
    obtain ⟨k, hk, hid⟩ := hinv.fresh _ w hfind
    have := freshId_injective hid.symm
    omega

/-- `register_user` preserves the invariant. -/
theorem register_user_inv (h : ChatServer) (username : String) (hinv : Inv h) :
    Inv (h.register_user username).1 := by
  unfold ChatServer.register_user
  dsimp only
  split_ifs with h1 h2 h3
  · exact hinv
  · exact hinv
  · exact hinv
  · have hfresh := freshId_not_found h hinv
    constructor
    · exact hinv.roomNameKey
    · intro rn room hf uid hm
      rw [alistFind_insert]
      split_ifs with hc
      · rfl
      · exact hinv.membersLive rn room hf uid hm
    · intro uid u hu r hcr
      rw [alistFind_insert] at hu
      split_ifs at hu with hc
      · cases hu
        simp only at hcr
        cases hcr
      · exact hinv.currentRoomLive uid u hu r hcr
    · intro uid u hu rn room hf
      rw [alistFind_insert] at hu
      split_ifs at hu with hc
      · cases hu
        constructor
        · intro hc2
          simp only at hc2
          cases hc2
        · intro hmem
          exfalso
          have := hinv.membersLive rn room hf uid hmem
          rw [← hc, hfresh] at this
          cases this
      · exact hinv.symmetry uid u hu rn room hf
    · intro uid u hu
      rw [alistFind_insert] at hu
      split_ifs at hu with hc
      · exact ⟨h.next_id, Nat.lt_succ_self _, hc.symm⟩
      · obtain ⟨k, hk, hid⟩ := hinv.fresh uid u hu
        exact ⟨k, Nat.lt_succ_of_lt hk, hid⟩
    · exact hinv.maxHist
    · exact hinv.histBound
    · exact hinv.general

/-- Length of the history after `add_message_to_history`: one longer, or
capped at `max_history`. -/
theorem add_message_to_history_length (room : Room) (un c t : String)
    (hpos : 0 < room.max_history) :
    (room.add_message_to_history un c t).message_history.length =
      min (room.message_history.length + 1) room.max_history := by
  unfold Room.add_message_to_history
  dsimp only
  split_ifs with h1 h2
  · omega
  · simp only [List.length_drop, List.length_append]
    simp only [List.length_append] at h1
    simp at h1 ⊢
    omega
  · simp only [List.length_append]
    simp only [List.length_append] at h1
    simp at h1 ⊢
    omega

/-- The history after `add_message_to_history` is a suffix of the appended
history: eviction only drops the oldest records. -/
theorem add_message_to_history_suffix (room : Room) (un c t : String) :
    (room.add_message_to_history un c t).message_history <:+
      room.message_history ++ [⟨un, c, t⟩] := by
  unfold Room.add_message_to_history
  dsimp only
  split_ifs with h1 h2
  · exact List.suffix_refl _
  · exact List.drop_suffix _ _
  · exact List.suffix_refl _

/-- `broadcast_message` preserves the invariant. -/
theorem broadcast_message_state_inv (h : ChatServer) (uid room_name content now : String)
    (hinv : Inv h) : Inv (h.broadcast_message uid room_name content now).state := by
  unfold ChatServer.broadcast_message
  cases hu : alistFind h.users uid with
  | none => exact hinv
  | some u =>
    dsimp only
    cases hr : alistFind h.rooms room_name with
    | none => exact hinv
    | some room =>
      dsimp only
      by_cases hhas : room.has_user uid
      · rw [if_pos hhas]
        have hmax : room.max_history = 100 := hinv.maxHist room_name room hr
        have hlen : (room.add_message_to_history u.username content now).message_history.length ≤
            100 := by
          rw [add_message_to_history_length room _ _ _ (by omega)]
          omega
        constructor
        · intro rn room' hf
          rw [alistFind_insert] at hf
          split_ifs at hf with hc
          · cases hf; simpa using hinv.roomNameKey room_name room hr ▸ hc
          · exact hinv.roomNameKey rn room' hf
        · intro rn room' hf uid' hm'
          rw [alistFind_insert] at hf
          split_ifs at hf with hc
          · cases hf
            exact hinv.membersLive room_name room hr uid' hm'
          · exact hinv.membersLive rn room' hf uid' hm'
        · intro uid' u' hu' r hcr
          rw [alistFind_insert]
          split_ifs with hc
          · rfl
          · exact hinv.currentRoomLive uid' u' hu' r hcr
        · intro uid' u' hu' rn room' hf
          rw [alistFind_insert] at hf
          split_ifs at hf with hc
          · cases hf
            subst hc
            exact hinv.symmetry uid' u' hu' room_name room hr
          · exact hinv.symmetry uid' u' hu' rn room' hf
        · exact hinv.fresh
        · intro rn room' hf
          rw [alistFind_insert] at hf
          split_ifs at hf with hc
          · cases hf
            exact hinv.maxHist room_name room hr
          · exact hinv.maxHist rn room' hf
        · intro rn room' hf
          rw [alistFind_insert] at hf
          split_ifs at hf with hc
          · cases hf
            exact hlen
          · exact hinv.histBound rn room' hf
        · rw [alistFind_insert]
          split_ifs with hc
          · rfl
          · exact hinv.general
      · rw [if_neg hhas]
        exact hinv

/-- If a user is in no room, they appear in no room's member set. -/
theorem not_member_of_current_none (h : ChatServer) (uid : String) (u : User)
    (hinv : Inv h) (hu : alistFind h.users uid = some u)
    (hcur : u.current_room = none) :
    ∀ rn room, alistFind h.rooms rn = some room → uid ∉ room.users := by
  intro rn room hf hmem
  have := (hinv.symmetry uid u hu rn room hf).mpr hmem
  rw [hcur] at this
  cases this

/-- Removing a user who is in no room's member set preserves the
invariant. -/
theorem eraseUser_inv (h : ChatServer) (uid : String) (hinv : Inv h)
    (hnm : ∀ rn room, alistFind h.rooms rn = some room → uid ∉ room.users) :
    Inv { h with users := alistErase h.users uid } := by
  constructor
  · exact hinv.roomNameKey
  · intro rn room hf uid' hm'
    rw [alistFind_erase]
    split_ifs with hc
    · exact absurd (hc ▸ hm') (hnm rn room hf)
    · exact hinv.membersLive rn room hf uid' hm'
  · intro uid' u' hu' r hcr
    rw [alistFind_erase] at hu'
    split_ifs at hu'
    exact hinv.currentRoomLive uid' u' hu' r hcr
  · intro uid' u' hu' rn room hf
    rw [alistFind_erase] at hu'
    split_ifs at hu'
    exact hinv.symmetry uid' u' hu' rn room hf
  · intro uid' u' hu'
    rw [alistFind_erase] at hu'
    split_ifs at hu'
    exact hinv.fresh uid' u' hu'
  · exact hinv.maxHist
  · exact hinv.histBound
  · exact hinv.general

/-- The add-member step of `join_room`, with the roomless precondition
discharged from the invariant. -/
theorem joinCore_state_inv (h1 : ChatServer) (uid room_name : String) (u1 : User)
    (hinv1 : Inv h1) (hu1 : alistFind h1.users uid = some u1)
    (hcur1 : u1.current_room = none ∨ u1.current_room = some room_name) :
    ∀ room, alistFind h1.rooms room_name = some room → uid ∉ room.users →
      Inv { h1 with
        rooms := alistInsert h1.rooms room_name { room with users := room.users ++ [uid] },
        users := alistUpdate h1.users uid fun v => { v with current_room := some room.name } } := by
  intro room hr hmem
  have hcurNone : u1.current_room = none := by
    rcases hcur1 with hc | hc
    · exact hc
    · exact absurd ((hinv1.symmetry uid u1 hu1 room_name room hr).mp hc) hmem
  exact joinUpdate_inv h1 uid room_name u1 room hinv1 hu1 hr hmem hcurNone

/-- `join_room` preserves the invariant. -/
theorem join_room_state_inv (h : ChatServer) (uid room_name : String) (hinv : Inv h) :
    Inv (h.join_room uid room_name).state := by
  unfold ChatServer.join_room
  cases hu : alistFind h.users uid with
  | none => exact hinv
  | some u =>
    dsimp only
    cases hcr : u.current_room with
    | none =>
      dsimp only
      cases hfr : alistFind h.rooms room_name with
      | none => exact hinv
      | some room =>
        dsimp only
        by_cases hmem : uid ∈ room.users
        · rw [if_pos hmem]; exact hinv
        · rw [if_neg hmem]
          exact joinCore_state_inv h uid room_name u hinv hu (Or.inl hcr) room hfr hmem
    | some r =>
      dsimp only
      by_cases hrn : r = room_name
      · rw [if_neg (fun hcc : r ≠ room_name => hcc hrn)]
        dsimp only
        cases hfr : alistFind h.rooms room_name with
        | none => exact hinv
        | some room =>
          dsimp only
          by_cases hmem : uid ∈ room.users
          · rw [if_pos hmem]; exact hinv
          · rw [if_neg hmem]
            exact joinCore_state_inv h uid room_name u hinv hu (Or.inr (hrn ▸ hcr))
              room hfr hmem
      · rw [if_pos hrn]
        dsimp only
        have hinv1 := leave_room_state_inv h uid r hinv
        have hu1 := leave_room_find_user h uid r u hinv hu hcr
        cases hfr : alistFind (h.leave_room uid r).state.rooms room_name with
        | none => exact hinv1
        | some room =>
          dsimp only
          by_cases hmem : uid ∈ room.users
          · rw [if_pos hmem]; exact hinv1
          · rw [if_neg hmem]
            exact joinCore_state_inv _ uid room_name _ hinv1 hu1 (Or.inl rfl) room hfr hmem

/-- `create_room_and_join` preserves the invariant. -/
theorem create_room_and_join_state_inv (h : ChatServer) (uid room_name now : String)
    (hinv : Inv h) : Inv (h.create_room_and_join uid room_name now).state := by
  unfold ChatServer.create_room_and_join
  cases hu : alistFind h.users uid with
  | none => exact hinv
  | some u =>
    dsimp only
    cases hcr : u.current_room with
    | none =>
      dsimp only
      by_cases hex : (alistFind h.rooms room_name).isSome
      · rw [if_pos hex]; exact hinv
      · rw [if_neg hex]
        dsimp only
        exact createUpdate_inv h uid room_name now u hinv hu
          (Option.not_isSome_iff_eq_none.mp hex) hcr
    | some r =>
      dsimp only
      have hinv1 := leave_room_state_inv h uid r hinv
      have hu1 := leave_room_find_user h uid r u hinv hu hcr
      by_cases hex : (alistFind (h.leave_room uid r).state.rooms room_name).isSome
      · rw [if_pos hex]; exact hinv1
      · rw [if_neg hex]
        dsimp only
        exact createUpdate_inv _ uid room_name now { u with current_room := none } hinv1 hu1
          (Option.not_isSome_iff_eq_none.mp hex) rfl

/-- `disconnect_user` preserves the invariant. -/
theorem disconnect_user_inv (h : ChatServer) (uid : String) (hinv : Inv h) :
    Inv (h.disconnect_user uid).1 := by
  unfold ChatServer.disconnect_user
  cases hu : alistFind h.users uid with
  | none => exact hinv
  | some u =>
    dsimp only
    cases hcr : u.current_room with
    | none =>
      dsimp only
      exact eraseUser_inv h uid hinv (not_member_of_current_none h uid u hinv hu hcr)
    | some r =>
      dsimp only
      have hinv1 := leave_room_state_inv h uid r hinv
      have hu1 := leave_room_find_user h uid r u hinv hu hcr
      exact eraseUser_inv _ uid hinv1 (not_member_of_current_none _ uid _ hinv1 hu1 rfl)

/-- Every hub operation preserves the invariant. -/
theorem step_inv (h : ChatServer) (op : Op) (hinv : Inv h) : Inv (h.step op) := by
  cases op with
  | register username => exact register_user_inv h username hinv
  | create_room_and_join uid rn now => exact create_room_and_join_state_inv h uid rn now hinv
  | join_room uid rn => exact join_room_state_inv h uid rn hinv
  | leave_room uid rn => exact leave_room_state_inv h uid rn hinv
  | chat uid rn c now => exact broadcast_message_state_inv h uid rn c now hinv
  | disconnect uid => exact disconnect_user_inv h uid hinv

theorem foldl_step_inv (ops : List Op) (h : ChatServer) (hinv : Inv h) :
    Inv (ops.foldl ChatServer.step h) := by
  induction ops generalizing h with
  | nil => exact hinv
  | cons op rest ih => exact ih _ (step_inv h op hinv)

/-- The invariant holds in every state reachable from startup. -/
theorem runOps_inv (ops : List Op) : Inv (runOps ops) :=
  foldl_step_inv ops initialState inv_initialState

/-- The last record of the history after `add_message_to_history` is the
new record (eviction drops from the front only). -/
theorem add_message_to_history_getLast (room : Room) (un c t : String) :
    (room.add_message_to_history un c t).message_history.getLast? =
      some ⟨un, c, t⟩ := by
  unfold Room.add_message_to_history
  dsimp only
  split_ifs with h1 h2
  · exact List.getLast?_concat _
  · rw [List.getLast?_drop, if_neg (by simp at h1 ⊢; omega)]
    exact List.getLast?_concat _
  · exact List.getLast?_concat _

/-!
## Claims
-/

/-- C10: codec round-trip — for every message whose type is a defined tag,
whose payload is a JSON value and whose timestamp is a string,
`Message.from_json (m.to_json())` returns a message with the same type,
payload and timestamp.  (In this embedding a `Message` has exactly such
components, and `json.loads ∘ json.dumps` is the identity on JSON values,
so the round trip is stated on JSON values.) -/
theorem codec_roundtrip (m : Message) (now : String) :
    Message.from_json m.to_json now = some m := by
  obtain ⟨t, p, ts⟩ := m
  cases t <;> rfl

/-- C9: the room named `General` exists in the rooms map from hub
initialization onward and no operation sequence removes it; moreover
`delete_room "General"` returns `False` on any state, without mutating
anything or emitting anything. -/
theorem general_room_immortal (ops : List Op) :
    (alistFind (runOps ops).rooms "General").isSome = true ∧
    ∀ h : ChatServer, h.delete_room "General" = ⟨h, [], false⟩ := by
  refine ⟨(runOps_inv ops).general, fun h => ?_⟩
  unfold ChatServer.delete_room
  rw [if_pos rfl]

/-- C2: after any sequence of hub operations, a live session has
`current_room = R` exactly when it is a member of `rooms[R]`, and no
session id is a member of two distinct rooms. -/
theorem membership_symmetry_and_single_room (ops : List Op) :
    (∀ uid u, alistFind (runOps ops).users uid = some u →
      ∀ rn room, alistFind (runOps ops).rooms rn = some room →
        (u.current_room = some rn ↔ uid ∈ room.users)) ∧
    (∀ rn1 room1 rn2 room2, alistFind (runOps ops).rooms rn1 = some room1 →
      alistFind (runOps ops).rooms rn2 = some room2 → rn1 ≠ rn2 →
      ∀ uid, uid ∈ room1.users → uid ∉ room2.users) := by
  have hinv := runOps_inv ops
  refine ⟨hinv.symmetry, ?_⟩
  intro rn1 room1 rn2 room2 h1 h2 hne uid hm1 hm2
  obtain ⟨u, hu⟩ := Option.isSome_iff_exists.mp (hinv.membersLive rn1 room1 h1 uid hm1)
  have e1 := (hinv.symmetry uid u hu rn1 room1 h1).mpr hm1
  have e2 := (hinv.symmetry uid u hu rn2 room2 h2).mpr hm2
  rw [e1] at e2
  cases e2
  exact hne rfl

/-- Witness for C2 at a concrete reachable state: `alice` joined `General`;
her `current_room` is `General` iff her id is in `General`'s member set. -/
theorem membership_symmetry_and_single_room_witness :
    (({ username := "alice", user_id := "u", current_room := some "General" } : User).current_room
        = some "General") ↔
      "u" ∈ ({ name := "General", created_by := "Sistema", created_at := "t0",
               users := ["u"], message_history := [], max_history := 100 } : Room).users :=
  (membership_symmetry_and_single_room [Op.register "alice", Op.join_room "u" "General"]).1
    "u" { username := "alice", user_id := "u", current_room := some "General" } (by decide)
    "General" { name := "General", created_by := "Sistema", created_at := "t0",
                users := ["u"], message_history := [], max_history := 100 } (by decide)

/-- C7: in every reachable state every room's history has at most
`MAX_HISTORY = 100` records, and an append evicts oldest-first, keeping
exactly the most recent `min (length + 1) max_history` records (the result
is always a suffix of the appended history). -/
theorem history_bound_and_fifo (ops : List Op) :
    (∀ rn room, alistFind (runOps ops).rooms rn = some room →
      room.message_history.length ≤ 100) ∧
    (∀ (room : Room) (un c t : String), 0 < room.max_history →
      (room.add_message_to_history un c t).message_history.length =
        min (room.message_history.length + 1) room.max_history ∧
      (room.add_message_to_history un c t).message_history <:+
        room.message_history ++ [⟨un, c, t⟩]) := by
  refine ⟨(runOps_inv ops).histBound, fun room un c t hpos => ?_⟩
  exact ⟨add_message_to_history_length room un c t hpos,
         add_message_to_history_suffix room un c t⟩

/-- Witness for C7: the bound at the initial `General` room, and FIFO
eviction on a concrete 2-bounded room that is full. -/
theorem history_bound_and_fifo_witness :
    generalRoom.message_history.length ≤ 100 ∧
    ((({ name := "r", created_by := "c", created_at := "t", users := [],
         message_history := [⟨"a", "m1", "t1"⟩, ⟨"a", "m2", "t2"⟩],
         max_history := 2 } : Room).add_message_to_history "a" "m3" "t3").message_history.length =
      min (2 + 1) 2 ∧
      (({ name := "r", created_by := "c", created_at := "t", users := [],
          message_history := [⟨"a", "m1", "t1"⟩, ⟨"a", "m2", "t2"⟩],
          max_history := 2 } : Room).add_message_to_history "a" "m3" "t3").message_history <:+
        [⟨"a", "m1", "t1"⟩, ⟨"a", "m2", "t2"⟩] ++ [⟨"a", "m3", "t3"⟩]) :=
  ⟨(history_bound_and_fifo []).1 "General" generalRoom (by decide),
   (history_bound_and_fifo []).2
     { name := "r", created_by := "c", created_at := "t", users := [],
       message_history := [⟨"a", "m1", "t1"⟩, ⟨"a", "m2", "t2"⟩], max_history := 2 }
     "a" "m3" "t3" (by decide)⟩

/-- C5 counterexample: chatting into a room that does not exist produces no
error at all — `broadcast_message` returns `False` silently with no
effects — whereas the claim requires the "No estás en esta sala" error also
in that case. -/
theorem chat_missing_room_silent :
    (runOps [Op.register "alice"]).broadcast_message "u" "foo" "x" "t1" =
      ⟨runOps [Op.register "alice"], [], false⟩ := by decide

/-- C5 (amended): if the room exists and the sender is not a member,
`broadcast_message` emits exactly `error("No estás en esta sala")` to the
sender and leaves the state (hence every history) unchanged; if the room
does not exist it returns `False` with no effects and no state change — no
error is emitted. -/
theorem chat_outside_membership (h : ChatServer) (uid room_name content now : String)
    (u : User) (hu : alistFind h.users uid = some u) :
    (∀ room, alistFind h.rooms room_name = some room → uid ∉ room.users →
      h.broadcast_message uid room_name content now =
        ⟨h, [Eff.send uid (Msg.error "No estás en esta sala")], false⟩) ∧
    (alistFind h.rooms room_name = none →
      h.broadcast_message uid room_name content now = ⟨h, [], false⟩) := by
  constructor
  · intro room hr hmem
    unfold ChatServer.broadcast_message
    rw [hu]
    dsimp only
    rw [hr]
    dsimp only
    rw [if_neg (show ¬ room.has_user uid from hmem)]
  · intro hr
    unfold ChatServer.broadcast_message
    rw [hu]
    dsimp only
    rw [hr]

/-- Witness for C5 (amended), at a reachable state where `bob` created
`foo` and `alice` is not a member. -/
theorem chat_outside_membership_witness :
    (runOps [Op.register "alice", Op.register "bob",
        Op.create_room_and_join "u#" "foo" "t1"]).broadcast_message "u" "foo" "x" "t2" =
      ⟨runOps [Op.register "alice", Op.register "bob",
         Op.create_room_and_join "u#" "foo" "t1"],
       [Eff.send "u" (Msg.error "No estás en esta sala")], false⟩ :=
  (chat_outside_membership _ "u" "foo" "x" "t2"
      { username := "alice", user_id := "u", current_room := none } (by decide)).1
    { name := "foo", created_by := "bob", created_at := "t1", users := ["u#"],
      message_history := [], max_history := 100 } (by decide) (by decide)

/-- C8 counterexample: a registered session sending a frame that is not
valid JSON gets no reply at all — in particular no
`error("mensaje inválido")` — the server only logs the decode failure. -/
theorem malformed_frame_no_reply :
    (runOps [Op.register "alice"]).processFrame "u" none "t1" =
      (runOps [Op.register "alice"], ([] : List Eff)) := by decide

/-- C8 (amended): a frame that is not valid JSON, or that
`Message.from_json` rejects (unknown or missing tag, missing payload), is
logged and ignored: no reply is sent, the hub state is unchanged, and the
session stays registered in its current state. -/
theorem malformed_frame_ignored (h : ChatServer) (uid now : String) (frame : Option Json)
    (hbad : frame = none ∨ ∃ j, frame = some j ∧ Message.from_json j now = none) :
    h.processFrame uid frame now = (h, []) := by
  rcases hbad with rfl | ⟨j, rfl, hj⟩
  · rfl
  · unfold ChatServer.processFrame
    dsimp only
    rw [hj]

/-- Witness for C8 (amended): a well-formed JSON object with an unknown
type tag is dropped without reply or state change. -/
theorem malformed_frame_ignored_witness :
    initialState.processFrame "u"
      (some (Json.obj [("type", Json.str "bogus"), ("payload", Json.obj []),
        ("timestamp", Json.str "t")])) "t" = (initialState, []) :=
  malformed_frame_ignored initialState "u" "t"
    (some (Json.obj [("type", Json.str "bogus"), ("payload", Json.obj []),
      ("timestamp", Json.str "t")]))
    (Or.inr ⟨_, rfl, rfl⟩)

/-- C1 counterexample: with `alice` a member of `General`, the rejected
`create_room_and_join("General")` is not atomic — `alice` is first removed
from her current room, so her `current_room` goes from `General` to unset
even though the operation is rejected. -/
theorem rejected_create_mutates_state :
    ((alistFind (runOps [Op.register "alice", Op.join_room "u" "General"]).users "u").map
        User.current_room = some (some "General")) ∧
    (alistFind ((runOps [Op.register "alice", Op.join_room "u" "General"]).create_room_and_join
        "u" "General" "t1").state.users "u").map User.current_room = some none := by
  decide

/-- C1 (amended): if the calling session's `current_room` is unset, a
rejected `create_room_and_join` (name taken) leaves the hub exactly in its
pre-call state with the duplicate-name error sent to that session only (by
the create-room handler), and a rejected `join_room` (name unknown) leaves
the hub unchanged and sends the missing-room error to that session only.
If the session is in a room, the code first executes the leave sequence,
whose state changes and notifications persist past the rejection. -/
theorem rejected_room_ops_atomic_when_roomless (h : ChatServer) (uid name now : String)
    (u : User) (hu : alistFind h.users uid = some u) (hcur : u.current_room = none) :
    ((alistFind h.rooms name).isSome = true →
      h.create_room_and_join uid name now = ⟨h, [], false⟩) ∧
    (pyStrip name = name → name ≠ "" → name.length ≤ 50 →
      (alistFind h.rooms name).isSome = true →
      h.handleCreateRoom uid (Json.obj [("room_name", Json.str name)]) now =
        (h, [Eff.send uid (Msg.error ("La sala '" ++ name ++ "' ya existe"))])) ∧
    (alistFind h.rooms name = none →
      h.join_room uid name =
        ⟨h, [Eff.send uid (Msg.error ("La sala '" ++ name ++ "' no existe"))], false⟩) := by
  have hcreate : (alistFind h.rooms name).isSome = true →
      h.create_room_and_join uid name now = ⟨h, [], false⟩ := by
    intro hex
    unfold ChatServer.create_room_and_join
    rw [hu]
    dsimp only
    rw [hcur]
    dsimp only
    rw [if_pos hex]
  refine ⟨hcreate, ?_, ?_⟩
  · intro htrim hne hlen hex
    unfold ChatServer.handleCreateRoom
    have hget : getStrD (Json.obj [("room_name", Json.str name)]) "room_name" "" =
        some name := by
      simp [getStrD, Json.getField, Json.getField.go]
    rw [hget]
    dsimp only
    rw [htrim, if_neg hne, if_neg (by omega : ¬ 50 < name.length), hcreate hex]
    simp
  · intro hnr
    unfold ChatServer.join_room
    rw [hu]
    dsimp only
    rw [hcur]
    dsimp only
    rw [hnr]
    dsimp only
    rw [List.nil_append]

/-- Witness for C1 (amended): roomless `alice` joining the nonexistent
room `foo` gets exactly the error and the hub is unchanged. -/
theorem rejected_room_ops_atomic_witness :
    (runOps [Op.register "alice"]).join_room "u" "foo" =
      ⟨runOps [Op.register "alice"],
       [Eff.send "u" (Msg.error "La sala 'foo' no existe")], false⟩ :=
  (rejected_room_ops_atomic_when_roomless (runOps [Op.register "alice"]) "u" "foo" "t1"
      { username := "alice", user_id := "u", current_room := none }
      (by decide) rfl).2.2 (by decide)

/-- Closed form of `register_user`: rejected exactly when the stripped name
is empty, longer than 30, or case-insensitively taken; otherwise the fresh
user is inserted. -/
theorem register_user_eq (h : ChatServer) (username : String) :
    h.register_user username =
      if pyStrip username = "" ∨ 30 < (pyStrip username).length ∨
          (h.users.any fun p => pyLower p.2.username == pyLower (pyStrip username)) = true
      then (h, none)
      else ({ h with
              users := alistInsert h.users (freshId h.next_id)
                { username := pyStrip username, user_id := freshId h.next_id,
                  current_room := none },
              next_id := h.next_id + 1 },
            some { username := pyStrip username, user_id := freshId h.next_id,
                   current_room := none }) := by
  unfold ChatServer.register_user
  dsimp only
  by_cases h1 : pyStrip username = ""
  · rw [if_pos h1, if_pos (Or.inl h1)]
  · rw [if_neg h1]
    by_cases h2 : 30 < (pyStrip username).length
    · rw [if_pos h2, if_pos (Or.inr (Or.inl h2))]
    · rw [if_neg h2]
      by_cases h3 : (h.users.any fun p => pyLower p.2.username == pyLower (pyStrip username))
          = true
      · rw [if_pos h3, if_pos (Or.inr (Or.inr h3))]
      · rw [if_neg h3, if_neg (not_or.mpr ⟨h1, not_or.mpr ⟨h2, h3⟩⟩)]

/-- C4: registration contract — the name is stripped; the request is
rejected, creating no session, exactly when the stripped name is empty,
longer than 30 characters, or case-insensitively equal to a live session's
name (in which case the connect branch replies `connection_error`); on
success a new session with `current_room` unset is inserted (no auto-join,
no room changes) and the connect branch replies `connection_ack` followed
by the current `rooms_list`. -/
theorem register_contract (h : ChatServer) (username : String) :
    ((pyStrip username = "" ∨ 30 < (pyStrip username).length ∨
        (h.users.any fun p => pyLower p.2.username == pyLower (pyStrip username)) = true) ↔
      h.register_user username = (h, none)) ∧
    (∀ u, (h.register_user username).2 = some u →
      u.username = pyStrip username ∧ u.current_room = none ∧
      u.user_id = freshId h.next_id ∧
      (h.register_user username).1.users = alistInsert h.users u.user_id u ∧
      (h.register_user username).1.rooms = h.rooms ∧
      h.handleConnect username =
        ((h.register_user username).1,
         [Msg.connection_ack u.username u.user_id,
          Msg.rooms_list (h.register_user username).1.get_rooms_info], some u)) ∧
    (h.register_user username = (h, none) →
      h.handleConnect username =
        (h, [Msg.connection_error "Nombre de usuario inválido o ya en uso"], none)) := by
  have he := register_user_eq h username
  by_cases hrej : pyStrip username = "" ∨ 30 < (pyStrip username).length ∨
      (h.users.any fun p => pyLower p.2.username == pyLower (pyStrip username)) = true
  · rw [if_pos hrej] at he
    refine ⟨⟨fun _ => he, fun _ => hrej⟩, ?_, ?_⟩
    · intro u hc
      rw [he] at hc
      cases hc
    · intro _
      unfold ChatServer.handleConnect
      rw [he]
  · rw [if_neg hrej] at he
    have hne : h.register_user username ≠ (h, none) := by
      rw [he]
      intro hc
      have := congrArg Prod.snd hc
      simp at this
    refine ⟨⟨fun habs => absurd habs hrej, fun heq => absurd heq hne⟩, ?_, ?_⟩
    · intro u hc
      rw [he] at hc
      dsimp only at hc
      cases hc
      refine ⟨rfl, rfl, rfl, ?_, ?_, ?_⟩
      · rw [he]
      · rw [he]
      · unfold ChatServer.handleConnect
        rw [he]
    · intro heq
      exact absurd heq hne

/-- Witness for C4: registering `alice` on the fresh hub succeeds, inserts
her with no current room, and the connect branch acks then sends the rooms
list. -/
theorem register_contract_witness :
    initialState.handleConnect "alice" =
      ((initialState.register_user "alice").1,
       [Msg.connection_ack "alice" "u",
        Msg.rooms_list (initialState.register_user "alice").1.get_rooms_info],
       some { username := "alice", user_id := "u", current_room := none }) :=
  ((register_contract initialState "alice").2.1
    { username := "alice", user_id := "u", current_room := none } (by decide)).2.2.2.2.2

/-- C3: chat echo — a member's non-empty trimmed message is appended as the
last record of the room's history (stamped with the sender's display name)
and the `chat_message` with `username = sender's display name`, the room
name and the content is sent to every current member, the sender
included. -/
theorem chat_echo (h : ChatServer) (uid room_name content now : String) (u : User)
    (room : Room) (hu : alistFind h.users uid = some u)
    (hr : alistFind h.rooms room_name = some room) (hmem : uid ∈ room.users)
    (htrim : pyStrip content = content) (hne : content ≠ "") :
    (h.broadcast_message uid room_name content now).ok = true ∧
    (h.broadcast_message uid room_name content now).state =
      { h with rooms := alistInsert h.rooms room_name
                          (room.add_message_to_history u.username content now) } ∧
    (room.add_message_to_history u.username content now).message_history.getLast? =
      some ⟨u.username, content, now⟩ ∧
    (h.broadcast_message uid room_name content now).effects =
      room.users.map (fun m => Eff.send m (Msg.chat_message u.username room_name content)) ∧
    (∀ m ∈ room.users,
      Eff.send m (Msg.chat_message u.username room_name content) ∈
        (h.broadcast_message uid room_name content now).effects) ∧
    Eff.send uid (Msg.chat_message u.username room_name content) ∈
      (h.broadcast_message uid room_name content now).effects := by
  have hb : h.broadcast_message uid room_name content now =
      ⟨{ h with rooms := alistInsert h.rooms room_name
                           (room.add_message_to_history u.username content now) },
       room.users.map (fun m => Eff.send m (Msg.chat_message u.username room_name content)),
       true⟩ := by
    unfold ChatServer.broadcast_message
    rw [hu]
    dsimp only
    rw [hr]
    dsimp only
    rw [if_pos (show room.has_user uid from hmem)]
    unfold Room.broadcast
    dsimp only
    congr 1
    simp [Room.add_message_to_history]
  refine ⟨by rw [hb], by rw [hb],
    add_message_to_history_getLast room u.username content now, by rw [hb], ?_, ?_⟩
  · intro m hm
    rw [hb]
    exact List.mem_map.mpr ⟨m, hm, rfl⟩
  · rw [hb]
    exact List.mem_map.mpr ⟨uid, hmem, rfl⟩

/-- Witness for C3: `alice` chatting in `General` is echoed back to
herself with her display name and the literal content. -/
theorem chat_echo_witness :
    ((runOps [Op.register "alice", Op.join_room "u" "General"]).broadcast_message
        "u" "General" "hola" "t3").effects =
      [Eff.send "u" (Msg.chat_message "alice" "General" "hola")] := by
  have h4 := (chat_echo (runOps [Op.register "alice", Op.join_room "u" "General"])
    "u" "General" "hola" "t3"
    { username := "alice", user_id := "u", current_room := some "General" }
    { name := "General", created_by := "Sistema", created_at := "t0",
      users := ["u"], message_history := [], max_history := 100 }
    (by decide) (by decide) (by decide) (by decide) (by decide)).2.2.2.1
  simpa using h4

theorem mem_broadcast {room : Room} {msg : Msg} {excl : Option String} {e : Eff}
    (he : e ∈ room.broadcast msg excl) : ∃ m, e = Eff.send m msg := by
  unfold Room.broadcast at he
  obtain ⟨m, _, rfl⟩ := List.mem_map.mp he
  exact ⟨m, rfl⟩

theorem mem_broadcast_to_all {h : ChatServer} {msg : Msg} {e : Eff}
    (he : e ∈ h.broadcast_to_all msg) : ∃ m, e = Eff.send m msg := by
  unfold ChatServer.broadcast_to_all at he
  obtain ⟨p, _, rfl⟩ := List.mem_map.mp he
  exact ⟨p.1, rfl⟩

theorem mem_broadcast_excl {room : Room} {msg : Msg} {x : String} {e : Eff}
    (he : e ∈ room.broadcast msg (some x)) : ∃ m, m ≠ x ∧ e = Eff.send m msg := by
  unfold Room.broadcast at he
  obtain ⟨m, hm, rfl⟩ := List.mem_map.mp he
  refine ⟨m, ?_, rfl⟩
  have h2 := (List.mem_filter.mp hm).2
  simpa using h2

theorem send_mem_broadcast_excl {room : Room} {msg : Msg} {x m : String}
    (hm : m ∈ room.users) (hne : m ≠ x) :
    Eff.send m msg ∈ room.broadcast msg (some x) := by
  unfold Room.broadcast
  exact List.mem_map.mpr ⟨m, List.mem_filter.mpr ⟨hm, by simp [hne]⟩, rfl⟩

/-- Every effect of `delete_room` is a `rooms_list` send. -/
theorem delete_room_effects_shape (h : ChatServer) (rn : String) :
    ∀ e ∈ (h.delete_room rn).effects, ∃ m info, e = Eff.send m (Msg.rooms_list info) := by
  unfold ChatServer.delete_room
  by_cases hg : rn = "General"
  · rw [if_pos hg]
    intro e he
    simp at he
  · rw [if_neg hg]
    cases hr : alistFind h.rooms rn with
    | none =>
      intro e he
      simp at he
    | some room =>
      dsimp only
      by_cases hemp : room.is_empty
      · rw [if_pos hemp]
        intro e he
        obtain ⟨m, rfl⟩ := mem_broadcast_to_all he
        exact ⟨m, _, rfl⟩
      · rw [if_neg hemp]
        intro e he
        simp at he

/-- `leave_room` never emits a `user_joined` notification. -/
theorem leave_room_no_user_joined (h : ChatServer) (uid rn : String) :
    ∀ e ∈ (h.leave_room uid rn).effects, ∀ s1 s2 tgt,
      e ≠ Eff.send tgt (Msg.user_joined s1 s2) := by
  unfold ChatServer.leave_room
  cases hu : alistFind h.users uid with
  | none =>
    intro e he
    simp at he
  | some u =>
    dsimp only
    cases hr : alistFind h.rooms rn with
    | none =>
      intro e he
      simp at he
    | some room =>
      dsimp only
      by_cases hmem : uid ∈ room.users
      · rw [if_pos hmem]
        dsimp only
        intro e he s1 s2 tgt
        rw [List.mem_append] at he
        rcases he with he | he
        · rw [List.mem_append] at he
          rcases he with he | he
          · obtain ⟨m, rfl⟩ := mem_broadcast he
            simp
          · revert he
            split_ifs with hemp
            · intro he
              simp at he
            · intro he
              obtain ⟨m, rfl⟩ := mem_broadcast he
              simp
        · revert he
          split_ifs with hc
          · intro he
            obtain ⟨m, info, rfl⟩ := delete_room_effects_shape _ rn e he
            simp
          · intro he
            obtain ⟨m, rfl⟩ := mem_broadcast_to_all he
            simp
      · rw [if_neg hmem]
        intro e he
        simp at he

/-- The audience of a join's effect groups: the `user_joined` group reaches
every member except the joiner, and no effect in the whole sequence is a
`user_joined` addressed to the joiner, as long as the prefix contains no
`user_joined` at all. -/
theorem join_effects_audience (uid un room_name : String) (pre : List Eff) (room' : Room)
    (rus : List String) (rl : List RoomInfo) (h2 : ChatServer)
    (hpre : ∀ e ∈ pre, ∀ s1 s2 tgt, e ≠ Eff.send tgt (Msg.user_joined s1 s2)) :
    (∀ m ∈ room'.users, m ≠ uid →
      Eff.send m (Msg.user_joined un room_name) ∈
        pre ++ room'.broadcast (Msg.user_joined un room_name) (some uid)
          ++ room'.broadcast (Msg.room_users room_name rus) none
          ++ [Eff.send uid (Msg.system_message
                ("Te has unido a la sala '" ++ room_name ++ "'") (some room_name))]
          ++ h2.broadcast_to_all (Msg.rooms_list rl)) ∧
    (∀ e ∈ pre ++ room'.broadcast (Msg.user_joined un room_name) (some uid)
          ++ room'.broadcast (Msg.room_users room_name rus) none
          ++ [Eff.send uid (Msg.system_message
                ("Te has unido a la sala '" ++ room_name ++ "'") (some room_name))]
          ++ h2.broadcast_to_all (Msg.rooms_list rl),
      e ≠ Eff.send uid (Msg.user_joined un room_name)) := by
  constructor
  · intro m hm hmne
    refine List.mem_append.mpr (Or.inl ?_)
    refine List.mem_append.mpr (Or.inl ?_)
    refine List.mem_append.mpr (Or.inl ?_)
    refine List.mem_append.mpr (Or.inr ?_)
    exact send_mem_broadcast_excl hm hmne
  · intro e he
    rcases List.mem_append.mp he with he | he
    · rcases List.mem_append.mp he with he | he
      · rcases List.mem_append.mp he with he | he
        · rcases List.mem_append.mp he with he | he
          · exact hpre e he un room_name uid
          · obtain ⟨m, hmne, rfl⟩ := mem_broadcast_excl he
            simp [hmne]
        · obtain ⟨m, rfl⟩ := mem_broadcast he
          simp
      · simp at he
        subst he
        simp
    · obtain ⟨m, rfl⟩ := mem_broadcast_to_all he
      simp

/-- C6: effect order and audience of a successful `join_room` — after the
effects of the preliminary leave of a previous room (empty when there was
none), the operation emits, in order: `user_joined` to every member except
the joining session, `room_users` to every member of the room (the joiner
included, who is in the room's member set), the welcome `system_message` to
the joining session only, and the refreshed `rooms_list` to every live
session.  The joining session never receives its own `user_joined`. -/
theorem join_effect_order (h : ChatServer) (uid room_name : String) (u : User)
    (hu : alistFind h.users uid = some u)
    (hok : (h.join_room uid room_name).ok = true) :
    ∃ h2 pre room',
      h.join_room uid room_name =
        ⟨h2,
         pre ++ room'.broadcast (Msg.user_joined u.username room_name) (some uid)
             ++ room'.broadcast (Msg.room_users room_name (h2.usernames room')) none
             ++ [Eff.send uid (Msg.system_message
                   ("Te has unido a la sala '" ++ room_name ++ "'") (some room_name))]
             ++ h2.broadcast_to_all (Msg.rooms_list h2.get_rooms_info),
         true⟩ ∧
      alistFind h2.rooms room_name = some room' ∧
      uid ∈ room'.users ∧
      (∀ m ∈ room'.users, m ≠ uid →
        Eff.send m (Msg.user_joined u.username room_name) ∈
          (h.join_room uid room_name).effects) ∧
      (∀ e ∈ (h.join_room uid room_name).effects,
        e ≠ Eff.send uid (Msg.user_joined u.username room_name)) := by
  unfold ChatServer.join_room at hok ⊢
  rw [hu] at hok ⊢
  dsimp only at hok ⊢
  cases hcr : u.current_room with
  | none =>
    rw [hcr] at hok
    dsimp only at hok ⊢
    cases hfr : alistFind h.rooms room_name with
    | none =>
      rw [hfr] at hok
      dsimp only at hok
      cases hok
    | some room =>
      rw [hfr] at hok
      dsimp only at hok ⊢
      by_cases hmem : uid ∈ room.users
      · rw [if_pos hmem] at hok
        dsimp only at hok
        cases hok
      · rw [if_neg hmem] at hok ⊢
        have haud := join_effects_audience uid u.username room_name []
          { room with users := room.users ++ [uid] }
          (ChatServer.usernames
            { h with
              rooms := alistInsert h.rooms room_name
                { room with users := room.users ++ [uid] },
              users := alistUpdate h.users uid
                fun v => { v with current_room := some room.name } }
            { room with users := room.users ++ [uid] })
          (ChatServer.get_rooms_info
            { h with
              rooms := alistInsert h.rooms room_name
                { room with users := room.users ++ [uid] },
              users := alistUpdate h.users uid
                fun v => { v with current_room := some room.name } })
          { h with
            rooms := alistInsert h.rooms room_name
              { room with users := room.users ++ [uid] },
            users := alistUpdate h.users uid
              fun v => { v with current_room := some room.name } }
          (fun e he => absurd he (List.not_mem_nil e))
        refine ⟨_, _, _, rfl, ?_, ?_, ?_, ?_⟩
        · rw [alistFind_insert, if_pos rfl]
        · simp
        · exact haud.1
        · exact haud.2
  | some r =>
    rw [hcr] at hok
    dsimp only at hok ⊢
    by_cases hrn : r = room_name
    · rw [if_neg (fun hcc : r ≠ room_name => hcc hrn)] at hok ⊢
      dsimp only at hok ⊢
      cases hfr : alistFind h.rooms room_name with
      | none =>
        rw [hfr] at hok
        dsimp only at hok
        cases hok
      | some room =>
        rw [hfr] at hok
        dsimp only at hok ⊢
        by_cases hmem : uid ∈ room.users
        · rw [if_pos hmem] at hok
          dsimp only at hok
          cases hok
        · rw [if_neg hmem] at hok ⊢
          have haud := join_effects_audience uid u.username room_name []
            { room with users := room.users ++ [uid] }
            (ChatServer.usernames
              { h with
                rooms := alistInsert h.rooms room_name
                  { room with users := room.users ++ [uid] },
                users := alistUpdate h.users uid
                  fun v => { v with current_room := some room.name } }
              { room with users := room.users ++ [uid] })
            (ChatServer.get_rooms_info
              { h with
                rooms := alistInsert h.rooms room_name
                  { room with users := room.users ++ [uid] },
                users := alistUpdate h.users uid
                  fun v => { v with current_room := some room.name } })
            { h with
              rooms := alistInsert h.rooms room_name
                { room with users := room.users ++ [uid] },
              users := alistUpdate h.users uid
                fun v => { v with current_room := some room.name } }
            (fun e he => absurd he (List.not_mem_nil e))
          refine ⟨_, _, _, rfl, ?_, ?_, ?_, ?_⟩
          · rw [alistFind_insert, if_pos rfl]
          · simp
          · exact haud.1
          · exact haud.2
    · rw [if_pos hrn] at hok ⊢
      dsimp only at hok ⊢
      cases hfr : alistFind (h.leave_room uid r).state.rooms room_name with
      | none =>
        rw [hfr] at hok
        dsimp only at hok
        cases hok
      | some room =>
        rw [hfr] at hok
        dsimp only at hok ⊢
        by_cases hmem : uid ∈ room.users
        · rw [if_pos hmem] at hok
          dsimp only at hok
          cases hok
        · rw [if_neg hmem] at hok ⊢
          have haud := join_effects_audience uid u.username room_name
            (h.leave_room uid r).effects
            { room with users := room.users ++ [uid] }
            (ChatServer.usernames
              { (h.leave_room uid r).state with
                rooms := alistInsert (h.leave_room uid r).state.rooms room_name
                  { room with users := room.users ++ [uid] },
                users := alistUpdate (h.leave_room uid r).state.users uid
                  fun v => { v with current_room := some room.name } }
              { room with users := room.users ++ [uid] })
            (ChatServer.get_rooms_info
              { (h.leave_room uid r).state with
                rooms := alistInsert (h.leave_room uid r).state.rooms room_name
                  { room with users := room.users ++ [uid] },
                users := alistUpdate (h.leave_room uid r).state.users uid
                  fun v => { v with current_room := some room.name } })
            { (h.leave_room uid r).state with
              rooms := alistInsert (h.leave_room uid r).state.rooms room_name
                { room with users := room.users ++ [uid] },
              users := alistUpdate (h.leave_room uid r).state.users uid
                fun v => { v with current_room := some room.name } }
            (leave_room_no_user_joined h uid r)
          refine ⟨_, _, _, rfl, ?_, ?_, ?_, ?_⟩
          · rw [alistFind_insert, if_pos rfl]
          · simp
          · exact haud.1
          · exact haud.2

/-- Witness for C6: `bob` joins `General` where `alice` already is; the
`user_joined(bob, General)` notification reaches `alice` and no effect of
the operation is a `user_joined` addressed to `bob` himself. -/
theorem join_effect_order_witness :
    Eff.send "u" (Msg.user_joined "bob" "General") ∈
      ((runOps [Op.register "alice", Op.register "bob",
          Op.join_room "u" "General"]).join_room "u#" "General").effects ∧
    ∀ e ∈ ((runOps [Op.register "alice", Op.register "bob",
        Op.join_room "u" "General"]).join_room "u#" "General").effects,
      e ≠ Eff.send "u#" (Msg.user_joined "bob" "General") := by
  obtain ⟨h2, pre, room', heq, hfind, hmem, haud, hnoin⟩ :=
    join_effect_order
      (runOps [Op.register "alice", Op.register "bob", Op.join_room "u" "General"])
      "u#" "General" { username := "bob", user_id := "u#", current_room := none }
      (by decide) (by decide)
  have hstate : ((runOps [Op.register "alice", Op.register "bob",
      Op.join_room "u" "General"]).join_room "u#" "General").state = h2 := by
    rw [heq]
  have hfind2 : alistFind ((runOps [Op.register "alice", Op.register "bob",
      Op.join_room "u" "General"]).join_room "u#" "General").state.rooms "General" =
      some room' := by
    rw [hstate]
    exact hfind
  have hconc : alistFind ((runOps [Op.register "alice", Op.register "bob",
      Op.join_room "u" "General"]).join_room "u#" "General").state.rooms "General" =
      some { name := "General", created_by := "Sistema", created_at := "t0",
             users := ["u", "u#"], message_history := [], max_history := 100 } := by
    decide
  rw [hconc] at hfind2
  cases hfind2
  exact ⟨haud "u" (by decide) (by decide), hnoin⟩

end ChatSpec
